import Mathlib

/-!
Verification of the classification and palette engine of the One-Click
Thematic Map plugin (src/thematic_map_dialog.py).

Numeric attribute values are modelled as exact rationals (`ℚ`): the Python
code computes in IEEE floating point, and every claim under study is about
the exact arithmetic the spec describes.  External library calls of the
source (`np.percentile`, `np.mean`) are given their documented exact
definitions; `np.std`, whose exact value is irrational in general, and
`jenkspy.jenks_breaks`, an optional dependency the source probes with a
try/import, are taken as explicit parameters of the embedding.
-/

namespace ThematicMap

/-- Truncation toward zero, the behaviour of Python `int()` on a number. -/
def truncQ (q : ℚ) : ℤ := if 0 ≤ q then ⌊q⌋ else ⌈q⌉

/-- Round half up, used only to state the spec's `round(...)` wording of the
downsampling indices (the source itself truncates). -/
def roundQ (q : ℚ) : ℤ := ⌊q + 1 / 2⌋

/-- Python `min(values)` over a non-empty list (0 for the empty list, which the
callers exclude). -/
def listMin : List ℚ → ℚ
  | [] => 0
  | x :: xs => xs.foldl min x

/-- Python `max(values)` over a non-empty list (0 for the empty list, which the
callers exclude). -/
def listMax : List ℚ → ℚ
  | [] => 0
  | x :: xs => xs.foldl max x

/-- `np.mean`: the arithmetic mean, sum divided by length. -/
def npMean (l : List ℚ) : ℚ := l.sum / l.length

/-- Python `sorted(...)` on rationals. -/
def sortAsc (l : List ℚ) : List ℚ := List.insertionSort (· ≤ ·) l

/-- Python `sorted(list(set(breaks)))`: the distinct elements in ascending
order. -/
def sortedDedup (l : List ℚ) : List ℚ := sortAsc l.dedup

/-- `np.percentile(values, p)` with the default linear-interpolation method:
with `a` the sorted values and `h = (len(a)-1) * p/100`, the value
`a[⌊h⌋] + (h - ⌊h⌋) * (a[⌈h⌉] - a[⌊h⌋])`. -/
def np_percentile (values : List ℚ) (p : ℚ) : ℚ :=
  let a := sortAsc values
  let h : ℚ := ((a.length : ℚ) - 1) * p / 100
  let vlo := a.getD (⌊h⌋).toNat 0
  let vhi := a.getD (⌈h⌉).toNat 0
  vlo + (h - (⌊h⌋ : ℚ)) * (vhi - vlo)

/-- `classify_equal_intervals` (thematic_map_dialog.py, lines 347-354). -/
def classify_equal_intervals (values : List ℚ) (n : ℕ) : List ℚ :=
  let mn := listMin values
  let mx := listMax values
  let interval := (mx - mn) / n
  (List.range (n + 1)).map (fun (i : ℕ) => mn + (i : ℚ) * interval)

/-- `classify_quantiles` (lines 356-359): percentiles at `i/n * 100`,
deduplicated and sorted. -/
def classify_quantiles (values : List ℚ) (n : ℕ) : List ℚ :=
  sortedDedup ((List.range (n + 1)).map
    (fun (i : ℕ) => np_percentile values ((i : ℚ) / (n : ℚ) * 100)))

/-- `classify_natural_breaks` (lines 361-369): `jenkspy.jenks_breaks` when
importing it succeeds (`jenks = some j`), else the quantiles fallback.  The optional
dependency is modelled as an `Option`-valued parameter. -/
def classify_natural_breaks (jenks : Option (List ℚ → ℕ → List ℚ))
    (values : List ℚ) (n : ℕ) : List ℚ :=
  match jenks with
  | some j => j values n
  | none => classify_quantiles values n

/-- Length of `str(k)` for a natural number `k`, i.e. its decimal digit count
(`"0"` has length 1).  Written with a fuel argument so the definition reduces
in the kernel. -/
def digitCountAux : ℕ → ℕ → ℕ
  | 0, _ => 1
  | fuel + 1, k => if k < 10 then 1 else digitCountAux fuel (k / 10) + 1

/-- Decimal digit count of a natural number, `len(str(k))`. -/
def pyDigitCount (k : ℕ) : ℕ := digitCountAux k k

/-- The rounding unit of `classify_pretty_breaks`:
`10 ** (len(str(int(range_val))) - 1)`. -/
def prettyUnit (values : List ℚ) : ℚ :=
  (10 : ℚ) ^ (pyDigitCount (truncQ (listMax values - listMin values)).toNat - 1)

/-- `pretty_min` of `classify_pretty_breaks`: `(int(min_val / unit)) * unit`. -/
def prettyMinOf (values : List ℚ) : ℚ :=
  (truncQ (listMin values / prettyUnit values) : ℚ) * prettyUnit values

/-- `pretty_max` of `classify_pretty_breaks`:
`(int(max_val / unit) + 1) * unit`. -/
def prettyMaxOf (values : List ℚ) : ℚ :=
  ((truncQ (listMax values / prettyUnit values) : ℚ) + 1) * prettyUnit values

/-- `classify_pretty_breaks` (lines 371-385). -/
def classify_pretty_breaks (values : List ℚ) (n : ℕ) : List ℚ :=
  let interval := (prettyMaxOf values - prettyMinOf values) / n
  (List.range (n + 1)).map (fun (i : ℕ) => prettyMinOf values + (i : ℚ) * interval)

/-- `classify_standard_deviation` (lines 387-394).  `np.std` is passed in as
`std` (its exact value is irrational in general, so the embedding does not fix
a closed form for it). -/
def classify_standard_deviation (std : List ℚ → ℚ)
    (values : List ℚ) (n : ℕ) : List ℚ :=
  let mean := npMean values
  let s := std values
  sortAsc ((List.range (n + 1)).map (fun (i : ℕ) => mean + ((i : ℚ) - (n : ℚ) / 2) * s))

/-- The classification-method dispatch of `generateThematicMap`
(lines 687-696); any unlisted method string falls through to Quantiles. -/
def classifyBreaks (jenks : Option (List ℚ → ℕ → List ℚ)) (std : List ℚ → ℚ)
    (values : List ℚ) (n : ℕ) (method : String) : List ℚ :=
  if method = "Equal Intervals" then classify_equal_intervals values n
  else if method = "Natural Breaks (Jenks)" then classify_natural_breaks jenks values n
  else if method = "Pretty Breaks" then classify_pretty_breaks values n
  else if method = "Standard Deviation" then classify_standard_deviation std values n
  else classify_quantiles values n

/-- The downsampling index of `np.linspace(0, len-1, n+1, dtype=int)`:
`i * (len-1) / n` truncated to an integer (modelled in exact arithmetic). -/
def linIdx (len n i : ℕ) : ℕ := (⌊(i : ℚ) * ((len : ℚ) - 1) / (n : ℚ)⌋).toNat

/-- The shared break post-processing of `generateThematicMap` (lines 698-702):
deduplicate as a set, sort ascending, and when more than `n+1` breaks remain,
keep the ones at `n+1` evenly spaced (truncated) indices. -/
def postprocessBreaks (breaks : List ℚ) (n : ℕ) : List ℚ :=
  let b := sortedDedup breaks
  if n + 1 < b.length then
    (List.range (n + 1)).map (fun i => b.getD (linIdx b.length n i) 0)
  else b

/-- Modelled from the spec: the post-processing as the claim words it, with the
downsampling indices `round(i * (len-1) / numClasses)` instead of the source's
truncation. -/
def postprocessBreaksRound (breaks : List ℚ) (n : ℕ) : List ℚ :=
  let b := sortedDedup breaks
  if n + 1 < b.length then
    (List.range (n + 1)).map (fun (i : ℕ) =>
      b.getD (roundQ ((i : ℚ) * ((b.length : ℚ) - 1) / (n : ℚ))).toNat 0)
  else b

/-- Modelled from the spec: PrettyBreaks as the claim words it — floor the
minimum and ceil the maximum to multiples of the unit, then `n+1` evenly
spaced breaks. -/
def prettyBreaksClaimed (values : List ℚ) (n : ℕ) : List ℚ :=
  let u := prettyUnit values
  let pmin : ℚ := (⌊listMin values / u⌋ : ℚ) * u
  let pmax : ℚ := (⌈listMax values / u⌉ : ℚ) * u
  (List.range (n + 1)).map (fun (i : ℕ) => pmin + (i : ℚ) * ((pmax - pmin) / n))

/-- Classification followed by the shared post-processing, the break pipeline
of `generateThematicMap`. -/
def generateBreaks (jenks : Option (List ℚ → ℕ → List ℚ)) (std : List ℚ → ℚ)
    (values : List ℚ) (n : ℕ) (method : String) : List ℚ :=
  postprocessBreaks (classifyBreaks jenks std values n method) n

/-- The class-count adjustment of `generateThematicMap` (lines 669-676): when
fewer valid samples than requested classes, use `max 2 validCount`. -/
def effectiveNumClasses (requested validCount : ℕ) : ℕ :=
  if validCount < requested then max 2 validCount else requested

/-- The upper-bound nudge of the range assembly (lines 713-715): when
`lower >= upper`, the upper bound becomes `lower + 0.0001`. -/
def adjustUpper (lower upper : ℚ) : ℚ :=
  if upper ≤ lower then lower + 1 / 10000 else upper

/-- The `(lower, upper)` bounds of the ranges assembled from a break list
(lines 708-715). -/
def assembleRanges (breaks : List ℚ) : List (ℚ × ℚ) :=
  (List.range (breaks.length - 1)).map (fun i =>
    (breaks.getD i 0, adjustUpper (breaks.getD i 0) (breaks.getD (i + 1) 0)))

/-- An RGB colour, the channel values of a `QColor`. -/
structure Color where
  r : ℤ
  g : ℤ
  b : ℤ
deriving DecidableEq

instance : Inhabited Color := ⟨⟨0, 0, 0⟩⟩

/-- The `Blue` anchor set of `get_color_scheme` (lines 475-485). -/
def blueAnchors : List Color :=
  [⟨247, 251, 255⟩, ⟨222, 235, 247⟩, ⟨198, 219, 239⟩, ⟨158, 202, 225⟩,
   ⟨107, 174, 214⟩, ⟨66, 146, 198⟩, ⟨33, 113, 181⟩, ⟨8, 81, 156⟩, ⟨8, 48, 107⟩]

/-- The `Red` anchor set (lines 486-496). -/
def redAnchors : List Color :=
  [⟨255, 245, 240⟩, ⟨254, 224, 210⟩, ⟨252, 187, 161⟩, ⟨252, 146, 114⟩,
   ⟨251, 106, 74⟩, ⟨239, 59, 44⟩, ⟨203, 24, 29⟩, ⟨165, 15, 21⟩, ⟨103, 0, 13⟩]

/-- The `Green` anchor set (lines 497-507). -/
def greenAnchors : List Color :=
  [⟨247, 252, 245⟩, ⟨229, 245, 224⟩, ⟨199, 233, 192⟩, ⟨161, 217, 155⟩,
   ⟨116, 196, 118⟩, ⟨65, 171, 93⟩, ⟨35, 139, 69⟩, ⟨0, 109, 44⟩, ⟨0, 68, 27⟩]

/-- The `Rainbow` anchor set (lines 508-516). -/
def rainbowAnchors : List Color :=
  [⟨158, 202, 225⟩, ⟨171, 221, 164⟩, ⟨255, 255, 191⟩, ⟨253, 174, 97⟩,
   ⟨244, 109, 67⟩, ⟨215, 48, 39⟩, ⟨165, 0, 38⟩]

/-- The `Purple` anchor set (lines 517-527). -/
def purpleAnchors : List Color :=
  [⟨252, 251, 253⟩, ⟨239, 237, 245⟩, ⟨218, 218, 235⟩, ⟨188, 189, 220⟩,
   ⟨158, 154, 200⟩, ⟨128, 125, 186⟩, ⟨106, 81, 163⟩, ⟨84, 39, 143⟩, ⟨63, 0, 125⟩]

/-- The `Heat` anchor set (lines 528-538). -/
def heatAnchors : List Color :=
  [⟨255, 255, 204⟩, ⟨255, 237, 160⟩, ⟨254, 217, 118⟩, ⟨254, 178, 76⟩,
   ⟨253, 141, 60⟩, ⟨252, 78, 42⟩, ⟨227, 26, 28⟩, ⟨189, 0, 38⟩, ⟨128, 0, 38⟩]

/-- The `Orange` anchor set (lines 539-549). -/
def orangeAnchors : List Color :=
  [⟨255, 245, 235⟩, ⟨254, 230, 206⟩, ⟨253, 208, 162⟩, ⟨253, 174, 107⟩,
   ⟨254, 143, 66⟩, ⟨253, 109, 30⟩, ⟨236, 82, 11⟩, ⟨204, 76, 2⟩, ⟨140, 45, 4⟩]

/-- `schemes.get(scheme_name, schemes['Blue'])` (line 556): the named scheme
table with the Blue anchors as the default for unknown names. -/
def lookupScheme (name : String) : List Color :=
  if name = "Blue" then blueAnchors
  else if name = "Red" then redAnchors
  else if name = "Green" then greenAnchors
  else if name = "Rainbow" then rainbowAnchors
  else if name = "Purple" then purpleAnchors
  else if name = "Heat" then heatAnchors
  else if name = "Orange" then orangeAnchors
  else blueAnchors

/-- The anchor resolution of `get_color_scheme` (lines 552-556): the two custom
colours for the `Custom` scheme, else the named table with Blue as default. -/
def resolveAnchors (customMin customMax : Color) (name : String) : List Color :=
  if name = "Custom" then [customMin, customMax] else lookupScheme name

/-- The default `custom_min_color` of the dialog, light blue (line 25). -/
def defaultMinColor : Color := ⟨173, 216, 230⟩

/-- The default `custom_max_color` of the dialog, dark blue (line 26). -/
def defaultMaxColor : Color := ⟨8, 81, 156⟩

/-- The interpolation branch of `get_color_scheme` (lines 563-583): piecewise
linear interpolation of the RGB channels over the anchor sequence, each channel
truncated to an integer. -/
def interpColors (base : List Color) (n : ℕ) : List Color :=
  (List.range n).map (fun (i : ℕ) =>
    let pos : ℚ := if 1 < n then (i : ℚ) / ((n : ℚ) - 1) else 0
    let baseIdx : ℚ := pos * ((base.length : ℚ) - 1)
    let idx1 : ℕ := (truncQ baseIdx).toNat
    let idx2 : ℕ := min (idx1 + 1) (base.length - 1)
    if idx1 = idx2 then base.getD idx1 default
    else
      let t : ℚ := baseIdx - (idx1 : ℚ)
      let c1 := base.getD idx1 default
      let c2 := base.getD idx2 default
      ⟨truncQ ((c1.r : ℚ) + ((c2.r : ℚ) - (c1.r : ℚ)) * t),
       truncQ ((c1.g : ℚ) + ((c2.g : ℚ) - (c1.g : ℚ)) * t),
       truncQ ((c1.b : ℚ) + ((c2.b : ℚ) - (c1.b : ℚ)) * t)⟩)

/-- `get_color_scheme` (lines 472-583): resolve the anchors, reverse them when
the reverse box is checked, then truncate or interpolate to `n` colours. -/
def get_color_scheme (customMin customMax : Color) (rev : Bool)
    (name : String) (n : ℕ) : List Color :=
  let base := resolveAnchors customMin customMax name
  let base2 := if rev then base.reverse else base
  if n ≤ base2.length then base2.take n else interpColors base2 n

/-- A raw attribute value, classified by how Python's validation at
lines 631-645 can see it: `None`, the empty string, a value `float()` rejects,
or a value parsing to a finite number, `+inf`, `-inf` or NaN. -/
inductive RawValue
  | null
  | emptyStr
  | unparseable
  | finiteVal (q : ℚ)
  | posInf
  | negInf
  | nan
deriving DecidableEq

/-- The validation of `generateThematicMap` (lines 631-645): a value is kept
when it is not `None`, not the empty string, `float()` parses it, and the
result compares unequal to both `float('inf')` and `float('-inf')`.  NaN
passes that test, since NaN compares unequal to everything. -/
def is_valid : RawValue → Bool
  | .null => false
  | .emptyStr => false
  | .unparseable => false
  | .finiteVal _ => true
  | .posInf => false
  | .negInf => false
  | .nan => true

/-- Modelled from the spec: a raw value "parses as a finite float". -/
def parsesAsFiniteFloat : RawValue → Bool
  | .finiteVal _ => true
  | _ => false

/-! ### Properties of the sorting and downsampling post-processing -/

lemma sortedDedup_sorted_le (l : List ℚ) : (sortedDedup l).Sorted (· ≤ ·) :=
  List.sorted_insertionSort _ _

lemma sortedDedup_nodup (l : List ℚ) : (sortedDedup l).Nodup :=
  ((List.perm_insertionSort _ _).nodup_iff).mpr l.nodup_dedup

lemma sortedDedup_sorted_lt (l : List ℚ) : (sortedDedup l).Sorted (· < ·) :=
  (sortedDedup_sorted_le l).lt_of_le (sortedDedup_nodup l)

lemma linIdx_lt_len {len n i : ℕ} (hlen : 0 < len) (hn : 0 < n) (hi : i ≤ n) :
    linIdx len n i < len := by
  have hn' : (0 : ℚ) < (n : ℚ) := by exact_mod_cast hn
  have h1 : (i : ℚ) * ((len : ℚ) - 1) / (n : ℚ) ≤ (len : ℚ) - 1 := by
    rw [div_le_iff₀ hn']
    have hi' : (i : ℚ) ≤ (n : ℚ) := by exact_mod_cast hi
    have hl : (1 : ℚ) ≤ (len : ℚ) := by exact_mod_cast hlen
    nlinarith
  have h2 : ⌊(i : ℚ) * ((len : ℚ) - 1) / (n : ℚ)⌋ ≤ (len : ℤ) - 1 := by
    apply Int.floor_le_iff.mpr
    push_cast
    linarith
  simp only [linIdx]
  omega

lemma linIdx_strictMono {len n i j : ℕ} (hlen : n + 1 < len) (hij : i < j)
    (hj : j ≤ n) : linIdx len n i < linIdx len n j := by
  have hn : 0 < n := by omega
  have hn' : (0 : ℚ) < (n : ℚ) := by exact_mod_cast hn
  have hl : (1 : ℚ) ≤ (len : ℚ) := by exact_mod_cast (by omega : 1 ≤ len)
  have hA0 : (0 : ℚ) ≤ (i : ℚ) * ((len : ℚ) - 1) / (n : ℚ) := by
    apply div_nonneg _ (le_of_lt hn')
    have : (0 : ℚ) ≤ (i : ℚ) := by positivity
    nlinarith
  have hone : (1 : ℚ) ≤ ((len : ℚ) - 1) / (n : ℚ) := by
    rw [le_div_iff₀ hn']
    have h2 : (n : ℚ) + 2 ≤ (len : ℚ) := by exact_mod_cast (by omega : n + 2 ≤ len)
    linarith
  have hji : (1 : ℚ) ≤ (j : ℚ) - (i : ℚ) := by
    have : ((i : ℚ) + 1) ≤ (j : ℚ) := by exact_mod_cast Nat.succ_le_of_lt hij
    linarith
  have hstep : (i : ℚ) * ((len : ℚ) - 1) / (n : ℚ) + 1 ≤
      (j : ℚ) * ((len : ℚ) - 1) / (n : ℚ) := by
    have hBA : (j : ℚ) * ((len : ℚ) - 1) / (n : ℚ) -
        (i : ℚ) * ((len : ℚ) - 1) / (n : ℚ) =
        ((j : ℚ) - (i : ℚ)) * (((len : ℚ) - 1) / (n : ℚ)) := by ring
    nlinarith [hBA]
  have hf : ⌊(i : ℚ) * ((len : ℚ) - 1) / (n : ℚ)⌋ + 1 ≤
      ⌊(j : ℚ) * ((len : ℚ) - 1) / (n : ℚ)⌋ := by
    have h1 := Int.floor_le_floor hstep
    rwa [show ((i : ℚ) * ((len : ℚ) - 1) / (n : ℚ) + 1) =
        ((i : ℚ) * ((len : ℚ) - 1) / (n : ℚ) + ((1 : ℤ) : ℚ)) by push_cast; ring,
      Int.floor_add_int] at h1
  have hA0' : 0 ≤ ⌊(i : ℚ) * ((len : ℚ) - 1) / (n : ℚ)⌋ := Int.floor_nonneg.mpr hA0
  simp only [linIdx]
  omega

lemma postprocess_sorted (l : List ℚ) (n : ℕ) :
    (postprocessBreaks l n).Sorted (· < ·) := by
  simp only [postprocessBreaks]
  by_cases hc : n + 1 < (sortedDedup l).length
  · rw [if_pos hc]
    apply List.pairwise_iff_getElem.mpr
    intro i j hi hj hij
    simp only [List.length_map, List.length_range] at hi hj
    simp only [List.getElem_map, List.getElem_range]
    have hlen0 : 0 < (sortedDedup l).length := by omega
    have hij2 : linIdx (sortedDedup l).length n i < linIdx (sortedDedup l).length n j :=
      linIdx_strictMono hc hij (by omega)
    have hjlt : linIdx (sortedDedup l).length n j < (sortedDedup l).length :=
      linIdx_lt_len hlen0 (by omega) (by omega)
    have hilt : linIdx (sortedDedup l).length n i < (sortedDedup l).length :=
      lt_trans hij2 hjlt
    rw [List.getD_eq_getElem _ _ hilt, List.getD_eq_getElem _ _ hjlt]
    exact List.pairwise_iff_getElem.mp (sortedDedup_sorted_lt l) _ _ hilt hjlt hij2
  · rw [if_neg hc]
    exact sortedDedup_sorted_lt l

lemma postprocess_length_le (l : List ℚ) (n : ℕ) :
    (postprocessBreaks l n).length ≤ n + 1 := by
  simp only [postprocessBreaks]
  by_cases hc : n + 1 < (sortedDedup l).length
  · rw [if_pos hc]; simp
  · rw [if_neg hc]; omega

lemma postprocess_length_eq (l : List ℚ) (n : ℕ)
    (h : n + 1 ≤ (sortedDedup l).length) :
    (postprocessBreaks l n).length = n + 1 := by
  simp only [postprocessBreaks]
  by_cases hc : n + 1 < (sortedDedup l).length
  · rw [if_pos hc]; simp
  · rw [if_neg hc]; omega

/-- C1 (amended): for every non-empty finite value sequence, class count
`n ≥ 1` and classification method, the pipeline of classification followed by
the shared post-processing returns a strictly ascending, duplicate-free break
sequence of length at most `n+1`, and of length exactly `n+1` whenever the
method's deduplicated raw output still has at least `n+1` distinct values.
(The original claim's "length exactly numClasses+1" fails on degenerate
inputs, see the counterexample.) -/
theorem c1_breaks_pipeline (jenks : Option (List ℚ → ℕ → List ℚ))
    (std : List ℚ → ℚ) (values : List ℚ) (n : ℕ) (method : String)
    (hv : values ≠ []) (hn : 1 ≤ n) :
    (generateBreaks jenks std values n method).Sorted (· < ·) ∧
    (generateBreaks jenks std values n method).Nodup ∧
    (generateBreaks jenks std values n method).length ≤ n + 1 ∧
    (n + 1 ≤ (sortedDedup (classifyBreaks jenks std values n method)).length →
      (generateBreaks jenks std values n method).length = n + 1) := by
  refine ⟨postprocess_sorted _ _, ?_, postprocess_length_le _ _,
    fun h => postprocess_length_eq _ _ h⟩
  exact (postprocess_sorted (classifyBreaks jenks std values n method) n).imp
    (fun h => ne_of_lt h)

/-- C1 witness: the amended statement at a concrete input. -/
theorem c1_breaks_pipeline_witness :
    (([0, 1, 2] : List ℚ) ≠ [] ∧ 1 ≤ 2) ∧
    ((generateBreaks none (fun _ => 0) [0, 1, 2] 2 "Equal Intervals").Sorted (· < ·) ∧
     (generateBreaks none (fun _ => 0) [0, 1, 2] 2 "Equal Intervals").Nodup ∧
     (generateBreaks none (fun _ => 0) [0, 1, 2] 2 "Equal Intervals").length ≤ 2 + 1 ∧
     (2 + 1 ≤ (sortedDedup (classifyBreaks none (fun _ => 0) [0, 1, 2] 2 "Equal Intervals")).length →
       (generateBreaks none (fun _ => 0) [0, 1, 2] 2 "Equal Intervals").length = 2 + 1)) :=
  ⟨⟨by simp, by norm_num⟩,
   c1_breaks_pipeline none (fun _ => 0) [0, 1, 2] 2 "Equal Intervals" (by simp) (by norm_num)⟩

/-- C1 counterexample: on the all-equal input `[10,10,10,10]` with 3 requested
classes, Quantiles classification followed by the shared post-processing
returns the single break `[10]`, not `3+1 = 4` breaks as the claim states. -/
theorem c1_quantiles_degenerate :
    generateBreaks none (fun _ => 0) [10, 10, 10, 10] 3 "Quantiles" = [10] ∧
    (generateBreaks none (fun _ => 0) [10, 10, 10, 10] 3 "Quantiles").length ≠ 3 + 1 := by
  with_unfolding_all decide

/-! ### Downsampling indices (claim C4) -/

/-- C4 (amended): when the sorted deduplicated break list has more than
`numClasses+1` elements, the post-processing keeps exactly the elements at
indices `⌊i * (len-1) / numClasses⌋` for `i = 0..numClasses` — truncated, not
rounded, indices (`np.linspace(..., dtype=int)` truncates) — and the result
has exactly `numClasses+1` breaks. -/
theorem c4_downsample (l : List ℚ) (n : ℕ)
    (h : n + 1 < (sortedDedup l).length) :
    postprocessBreaks l n =
      (List.range (n + 1)).map (fun (i : ℕ) =>
        (sortedDedup l).getD
          (⌊(i : ℚ) * (((sortedDedup l).length : ℚ) - 1) / (n : ℚ)⌋).toNat 0) ∧
    (postprocessBreaks l n).length = n + 1 := by
  constructor
  · simp only [postprocessBreaks, linIdx]
    rw [if_pos h]
  · exact postprocess_length_eq l n (le_of_lt h)

/-- C4 witness: the amended statement at a concrete input. -/
theorem c4_downsample_witness :
    (2 + 1 < (sortedDedup [0, 1, 2, 3, 4, 5, 6, 7]).length) ∧
    (postprocessBreaks [0, 1, 2, 3, 4, 5, 6, 7] 2 =
      (List.range (2 + 1)).map (fun (i : ℕ) =>
        (sortedDedup [0, 1, 2, 3, 4, 5, 6, 7]).getD
          (⌊(i : ℚ) * (((sortedDedup [0, 1, 2, 3, 4, 5, 6, 7]).length : ℚ) - 1) /
            ((2 : ℕ) : ℚ)⌋).toNat 0) ∧
     (postprocessBreaks [0, 1, 2, 3, 4, 5, 6, 7] 2).length = 2 + 1) :=
  ⟨by with_unfolding_all decide,
   c4_downsample [0, 1, 2, 3, 4, 5, 6, 7] 2 (by with_unfolding_all decide)⟩

/-- C4 counterexample: on the 8 distinct breaks `[0..7]` with `numClasses = 2`,
the source selects indices `(0, 3, 7)` (truncation of `(0, 3.5, 7)`), while the
claim's `round` selects `(0, 4, 7)`. -/
theorem c4_round_vs_trunc_cex :
    postprocessBreaks [0, 1, 2, 3, 4, 5, 6, 7] 2 = [0, 3, 7] ∧
    postprocessBreaksRound [0, 1, 2, 3, 4, 5, 6, 7] 2 = [0, 4, 7] ∧
    postprocessBreaks [0, 1, 2, 3, 4, 5, 6, 7] 2 ≠
      postprocessBreaksRound [0, 1, 2, 3, 4, 5, 6, 7] 2 := by
  with_unfolding_all decide

/-! ### Pretty breaks (claim C3) -/

lemma getD_range_map (f : ℕ → ℚ) {n i : ℕ} (h : i < n) :
    ((List.range n).map f).getD i 0 = f i := by
  rw [List.getD_eq_getElem _ _ (by simp [h])]
  simp

lemma foldl_min_le (xs : List ℚ) (x : ℚ) : xs.foldl min x ≤ x := by
  induction xs generalizing x with
  | nil => exact le_refl x
  | cons y ys ih => exact le_trans (ih (min x y)) (min_le_left x y)

lemma le_foldl_max (xs : List ℚ) (x : ℚ) : x ≤ xs.foldl max x := by
  induction xs generalizing x with
  | nil => exact le_refl x
  | cons y ys ih => exact le_trans (le_max_left x y) (ih (max x y))

lemma listMin_le_listMax {l : List ℚ} (h : l ≠ []) : listMin l ≤ listMax l := by
  cases l with
  | nil => exact absurd rfl h
  | cons x xs => exact le_trans (foldl_min_le xs x) (le_foldl_max xs x)

lemma truncQ_le_truncQ {a b : ℚ} (h : a ≤ b) : truncQ a ≤ truncQ b := by
  unfold truncQ
  by_cases ha : 0 ≤ a
  · rw [if_pos ha, if_pos (le_trans ha h)]
    exact Int.floor_le_floor h
  · rw [if_neg ha]
    by_cases hb : 0 ≤ b
    · rw [if_pos hb]
      have h1 : ⌈a⌉ ≤ 0 := Int.ceil_le.mpr (by exact_mod_cast le_of_not_le ha)
      have h2 : 0 ≤ ⌊b⌋ := Int.floor_nonneg.mpr hb
      omega
    · rw [if_neg hb]
      exact Int.ceil_le_ceil h

lemma prettyUnit_pos (values : List ℚ) : 0 < prettyUnit values := by
  unfold prettyUnit
  positivity

lemma prettyMin_lt_prettyMax {values : List ℚ} (h : values ≠ []) :
    prettyMinOf values < prettyMaxOf values := by
  have hu : 0 < prettyUnit values := prettyUnit_pos values
  have hmm : listMin values ≤ listMax values := listMin_le_listMax h
  have ht : truncQ (listMin values / prettyUnit values) ≤
      truncQ (listMax values / prettyUnit values) :=
    truncQ_le_truncQ (by gcongr)
  have hcast : ((truncQ (listMin values / prettyUnit values)) : ℚ) ≤
      ((truncQ (listMax values / prettyUnit values)) : ℚ) := by exact_mod_cast ht
  unfold prettyMinOf prettyMaxOf
  nlinarith [hu, hcast]

/-- C3 (amended): PrettyBreaks computes `unit = 10^(digits(int(M-m)) - 1)`,
rounds the minimum with `int(m/unit) * unit` (truncation toward zero, which
equals floor only for nonnegative values) and the maximum with
`(int(M/unit) + 1) * unit` (one unit above the truncation, which overshoots a
true ceiling whenever `M` is already a nonnegative multiple of `unit`), and
returns `numClasses+1` evenly spaced, strictly increasing breaks between those
two bounds. -/
theorem c3_pretty_breaks (values : List ℚ) (n : ℕ)
    (hv : values ≠ []) (hn : 1 ≤ n) :
    (classify_pretty_breaks values n).length = n + 1 ∧
    prettyMinOf values < prettyMaxOf values ∧
    (classify_pretty_breaks values n).getD 0 0 = prettyMinOf values ∧
    (classify_pretty_breaks values n).getD n 0 = prettyMaxOf values ∧
    (∀ i, i < n →
      (classify_pretty_breaks values n).getD (i + 1) 0 -
        (classify_pretty_breaks values n).getD i 0 =
        (prettyMaxOf values - prettyMinOf values) / n) := by
  have hn' : ((n : ℚ)) ≠ 0 := by
    have : (0 : ℚ) < (n : ℚ) := by exact_mod_cast hn
    exact ne_of_gt this
  refine ⟨?_, prettyMin_lt_prettyMax hv, ?_, ?_, ?_⟩
  · simp [classify_pretty_breaks]
  · rw [show classify_pretty_breaks values n = (List.range (n + 1)).map
        (fun (i : ℕ) => prettyMinOf values +
          (i : ℚ) * ((prettyMaxOf values - prettyMinOf values) / n)) from rfl,
      getD_range_map _ (by omega)]
    push_cast
    ring
  · rw [show classify_pretty_breaks values n = (List.range (n + 1)).map
        (fun (i : ℕ) => prettyMinOf values +
          (i : ℚ) * ((prettyMaxOf values - prettyMinOf values) / n)) from rfl,
      getD_range_map _ (by omega)]
    field_simp
  · intro i hi
    rw [show classify_pretty_breaks values n = (List.range (n + 1)).map
        (fun (i : ℕ) => prettyMinOf values +
          (i : ℚ) * ((prettyMaxOf values - prettyMinOf values) / n)) from rfl,
      getD_range_map _ (by omega), getD_range_map _ (by omega)]
    push_cast
    ring

/-- C3 witness: the amended statement at a concrete input. -/
theorem c3_pretty_breaks_witness :
    (([1, 7] : List ℚ) ≠ [] ∧ 1 ≤ 2) ∧
    ((classify_pretty_breaks [1, 7] 2).length = 2 + 1 ∧
     prettyMinOf [1, 7] < prettyMaxOf [1, 7] ∧
     (classify_pretty_breaks [1, 7] 2).getD 0 0 = prettyMinOf [1, 7] ∧
     (classify_pretty_breaks [1, 7] 2).getD 2 0 = prettyMaxOf [1, 7] ∧
     (∀ i, i < 2 →
       (classify_pretty_breaks [1, 7] 2).getD (i + 1) 0 -
         (classify_pretty_breaks [1, 7] 2).getD i 0 =
         (prettyMaxOf [1, 7] - prettyMinOf [1, 7]) / 2)) :=
  ⟨⟨by simp, by norm_num⟩, c3_pretty_breaks [1, 7] 2 (by simp) (by norm_num)⟩

/-- C3 counterexample: on values `[0, 10]` the range is 10, the unit is 10, and
the source rounds the maximum to `(int(10/10) + 1) * 10 = 20` instead of the
claimed ceiling `10`; the code returns `[0, 10, 20]` where the claim's formula
gives `[0, 5, 10]`. -/
theorem c3_pretty_cex :
    classify_pretty_breaks [0, 10] 2 = [0, 10, 20] ∧
    prettyBreaksClaimed [0, 10] 2 = [0, 5, 10] ∧
    classify_pretty_breaks [0, 10] 2 ≠ prettyBreaksClaimed [0, 10] 2 := by
  with_unfolding_all decide

/-! ### Jenks fallback (claim C5) -/

/-- C5: when the `jenkspy` import fails (`jenks = none`), NaturalBreaks
classification returns exactly the Quantiles classification of the same
inputs — by the fallback branch of `classify_natural_breaks`, without any
error path. -/
theorem c5_jenks_fallback (values : List ℚ) (n : ℕ) :
    classify_natural_breaks none values n = classify_quantiles values n := rfl

/-! ### Effective class count (claim C8) -/

/-- C8: when fewer valid samples than requested classes are available, the
effective class count is `max 2 sampleCount`; otherwise the requested count is
used unchanged. -/
theorem c8_effective_classes (requested validCount : ℕ) (h : 1 ≤ validCount) :
    (validCount < requested →
      effectiveNumClasses requested validCount = max 2 validCount) ∧
    (requested ≤ validCount →
      effectiveNumClasses requested validCount = requested) := by
  unfold effectiveNumClasses
  constructor
  · intro hc
    rw [if_pos hc]
  · intro hc
    rw [if_neg (by omega)]

/-- C8 witness: the statement at a concrete input. -/
theorem c8_effective_classes_witness :
    (1 ≤ 3) ∧
    ((3 < 5 → effectiveNumClasses 5 3 = max 2 3) ∧
     (5 ≤ 3 → effectiveNumClasses 5 3 = 5)) :=
  ⟨by norm_num, c8_effective_classes 5 3 (by norm_num)⟩

/-! ### Range bounds (claim C9) -/

/-- C9: every range produced by the range assembly has `lower < upper`
strictly: when the incoming pair has `upper ≤ lower` the upper bound is
replaced by `lower + 0.0001`, and otherwise it is kept unchanged. -/
theorem c9_range_bounds (breaks : List ℚ) (lower upper : ℚ) :
    (∀ p ∈ assembleRanges breaks, p.1 < p.2) ∧
    lower < adjustUpper lower upper ∧
    (upper ≤ lower → adjustUpper lower upper = lower + 1 / 10000) ∧
    (lower < upper → adjustUpper lower upper = upper) := by
  have key : ∀ a b : ℚ, a < adjustUpper a b := by
    intro a b
    unfold adjustUpper
    by_cases hc : b ≤ a
    · rw [if_pos hc]
      linarith
    · rw [if_neg hc]
      exact lt_of_not_le hc
  refine ⟨?_, key lower upper, ?_, ?_⟩
  · intro p hp
    simp only [assembleRanges, List.mem_map, List.mem_range] at hp
    obtain ⟨i, hi, rfl⟩ := hp
    exact key _ _
  · intro hc
    unfold adjustUpper
    rw [if_pos hc]
  · intro hc
    unfold adjustUpper
    rw [if_neg (by linarith)]

/-! ### Palette (claims C2, C6, C10) -/

/-- C2 (amended): for `1 ≤ n ≤ anchors.length`, the first colour of the
reversed palette is the LAST anchor of the scheme, `A[length(A)-1]` — not
`A[n-1]` as the claim's identity with `colorsFor(scheme,n,false)[n-1]` would
require; the two coincide exactly when `n` equals the anchor count. -/
theorem c2_reversed_first_color (customMin customMax : Color) (name : String)
    (n : ℕ) (h1 : 1 ≤ n)
    (h2 : n ≤ (resolveAnchors customMin customMax name).length) :
    (get_color_scheme customMin customMax true name n).getD 0 default =
      (resolveAnchors customMin customMax name).getD
        ((resolveAnchors customMin customMax name).length - 1) default := by
  have hlen : 0 < (resolveAnchors customMin customMax name).length :=
    lt_of_lt_of_le h1 h2
  simp only [get_color_scheme, if_true]
  rw [if_pos (by rw [List.length_reverse]; exact h2)]
  have h0 : 0 < ((resolveAnchors customMin customMax name).reverse.take n).length := by
    simp only [List.length_take, List.length_reverse]
    omega
  rw [List.getD_eq_getElem _ _ h0,
    List.getD_eq_getElem _ _ (by omega :
      (resolveAnchors customMin customMax name).length - 1 <
        (resolveAnchors customMin customMax name).length)]
  rw [List.getElem_take, List.getElem_reverse]
  simp

/-- C2 witness: the amended statement at the Blue scheme with 5 classes. -/
theorem c2_reversed_first_color_witness :
    (1 ≤ 5 ∧ 5 ≤ (resolveAnchors defaultMinColor defaultMaxColor "Blue").length) ∧
    (get_color_scheme defaultMinColor defaultMaxColor true "Blue" 5).getD 0 default =
      (resolveAnchors defaultMinColor defaultMaxColor "Blue").getD
        ((resolveAnchors defaultMinColor defaultMaxColor "Blue").length - 1) default :=
  ⟨⟨by norm_num, by decide⟩,
   c2_reversed_first_color defaultMinColor defaultMaxColor "Blue" 5
     (by norm_num) (by decide)⟩

/-- C2 counterexample: with the Blue scheme (9 anchors) and `n = 5 ≤ 9`, the
first colour of the reversed palette is the last Blue anchor `(8,48,107)`,
while the last colour of the non-reversed palette is the fifth anchor
`(107,174,214)` — the claimed identity fails. -/
theorem c2_reversed_vs_forward_cex :
    (get_color_scheme defaultMinColor defaultMaxColor true "Blue" 5).getD 0 default =
      ⟨8, 48, 107⟩ ∧
    (get_color_scheme defaultMinColor defaultMaxColor false "Blue" 5).getD 4 default =
      ⟨107, 174, 214⟩ ∧
    ((⟨8, 48, 107⟩ : Color) ≠ ⟨107, 174, 214⟩) := by
  decide

/-- C6: `get_color_scheme` returns exactly `n` colours for every `n ≥ 1`, and
whenever `n` is at most the (possibly reversed) anchor count the result is
exactly the first `n` of those anchors (truncation, not sampling). -/
theorem c6_palette_length (customMin customMax : Color) (rev : Bool)
    (name : String) (n : ℕ) (hn : 1 ≤ n) :
    (get_color_scheme customMin customMax rev name n).length = n ∧
    (n ≤ (if rev then (resolveAnchors customMin customMax name).reverse
          else resolveAnchors customMin customMax name).length →
      get_color_scheme customMin customMax rev name n =
        (if rev then (resolveAnchors customMin customMax name).reverse
         else resolveAnchors customMin customMax name).take n) := by
  simp only [get_color_scheme]
  by_cases hc : n ≤ (if rev then (resolveAnchors customMin customMax name).reverse
      else resolveAnchors customMin customMax name).length
  · rw [if_pos hc]
    refine ⟨?_, fun _ => rfl⟩
    simp only [List.length_take]
    omega
  · rw [if_neg hc]
    refine ⟨?_, fun h => absurd h hc⟩
    simp [interpColors]

/-- C6 witness: with the Blue scheme (9 anchors) and 5 classes the palette has
exactly 5 colours, the first five Blue anchors. -/
theorem c6_palette_length_witness :
    (1 ≤ 5) ∧
    ((get_color_scheme defaultMinColor defaultMaxColor false "Blue" 5).length = 5 ∧
     (5 ≤ (if false then (resolveAnchors defaultMinColor defaultMaxColor "Blue").reverse
           else resolveAnchors defaultMinColor defaultMaxColor "Blue").length →
       get_color_scheme defaultMinColor defaultMaxColor false "Blue" 5 =
         (if false then (resolveAnchors defaultMinColor defaultMaxColor "Blue").reverse
          else resolveAnchors defaultMinColor defaultMaxColor "Blue").take 5)) :=
  ⟨by norm_num, c6_palette_length defaultMinColor defaultMaxColor false "Blue" 5 (by norm_num)⟩

/-- C10: a scheme name that is neither `Custom` nor one of the seven named
schemes silently resolves to the Blue anchors: `get_color_scheme` returns the
same colours as for the `Blue` scheme instead of failing. -/
theorem c10_unknown_scheme_blue (customMin customMax : Color) (rev : Bool)
    (name : String) (n : ℕ) (hc : name ≠ "Custom")
    (hb : name ∉ (["Blue", "Red", "Green", "Rainbow", "Purple", "Heat",
      "Orange"] : List String)) :
    get_color_scheme customMin customMax rev name n =
      get_color_scheme customMin customMax rev "Blue" n := by
  have hbase : resolveAnchors customMin customMax name =
      resolveAnchors customMin customMax "Blue" := by
    simp only [List.mem_cons, List.mem_singleton, not_or] at hb
    obtain ⟨h1, h2, h3, h4, h5, h6, h7, _⟩ := hb
    unfold resolveAnchors lookupScheme
    rw [if_neg hc, if_neg h1, if_neg h2, if_neg h3, if_neg h4, if_neg h5,
      if_neg h6, if_neg h7, if_neg (by decide : ¬("Blue" : String) = "Custom"),
      if_pos (rfl : ("Blue" : String) = "Blue")]
  unfold get_color_scheme
  rw [hbase]

/-- C10 witness: the unknown scheme name `Viridis` yields the Blue palette. -/
theorem c10_unknown_scheme_blue_witness :
    (("Viridis" : String) ≠ "Custom" ∧
     ("Viridis" : String) ∉ (["Blue", "Red", "Green", "Rainbow", "Purple",
       "Heat", "Orange"] : List String)) ∧
    get_color_scheme defaultMinColor defaultMaxColor false "Viridis" 3 =
      get_color_scheme defaultMinColor defaultMaxColor false "Blue" 3 :=
  ⟨⟨by decide, by decide⟩,
   c10_unknown_scheme_blue defaultMinColor defaultMaxColor false "Viridis" 3
     (by decide) (by decide)⟩

/-! ### Validation (claim C7) -/

/-- C7 (amended): the validation accepts a raw value exactly when it parses as
a float that is neither `+inf` nor `-inf`: `None`, the empty string,
unparseable values and both infinities are rejected, but NaN — which parses
and compares unequal to both infinities — is accepted, contrary to the
claim's "only finite non-NaN" reading. -/
theorem c7_validation (v : RawValue) :
    is_valid v = true ↔ (parsesAsFiniteFloat v = true ∨ v = RawValue.nan) := by
  cases v <;> simp [is_valid, parsesAsFiniteFloat]

/-- C7 counterexample: NaN does not parse as a finite float, yet the
validation accepts it. -/
theorem c7_validation_nan_cex :
    is_valid RawValue.nan = true ∧ parsesAsFiniteFloat RawValue.nan = false := by
  decide

end ThematicMap
